import Mathlib

/-!
Verification of the `acmensa-rs` extraction pipeline (`libacmensa`).

Rust strings are modelled as `List Char` (UTF-8 byte order on Rust strings
coincides with code-point order, so the derived `Ord` on `String` is the
lexicographic order on the character list).  The two regular expressions of
`src/libacmensa/src/scrape.rs`,

  `ALLERGEN_REGEX = \(([A-Z0-9,]*)\)`   and   `SPACE_REGEX = \s\s+`,

are embedded as one-pass structural scanners (so that they compute by kernel
reduction); the scanner for the allergen pattern is certified below against
the declarative "leftmost anchored match" function `allergenTryMatch` by the
lemma `removeAllergenGroups_eq_match`.  Rust panics (`unwrap_or_else(|| panic!())`)
abort the whole `scrape_page` call; the spec names this failure mode
`LayoutMismatch`, and the embedding models it as `Except.error .layoutMismatch`.
-/

/-- Characters of a string literal, the model of a Rust `&str`. -/
def strL (s : String) : List Char := s.toList

/-- Model of Rust `char` lowercasing as used by `str::to_lowercase` on the
label tables of `meal.rs`: ASCII letters plus the German umlauts appearing
in those tables. -/
def charLower (c : Char) : Char :=
  if c = 'Ä' then 'ä' else if c = 'Ö' then 'ö' else if c = 'Ü' then 'ü' else c.toLower

/-- Model of Rust `str::to_lowercase`. -/
def lowerL (l : List Char) : List Char := l.map charLower

/-- Model of Rust `str::contains(pattern)` (substring containment). -/
def containsSub (l pat : List Char) : Bool := decide (pat <:+: l)

/-- Unicode white space (the set matched by the `regex` crate's `\s` and by
Rust `char::is_whitespace`). -/
def isWsp (c : Char) : Bool :=
  let n := c.toNat
  (9 ≤ n && n ≤ 13) || n = 32 || n = 0x85 || n = 0xA0 || n = 0x1680 ||
    (0x2000 ≤ n && n ≤ 0x200A) || n = 0x2028 || n = 0x2029 || n = 0x202F ||
    n = 0x205F || n = 0x3000

/-- Model of Rust `str::trim`. -/
def trimChars (l : List Char) : List Char :=
  ((l.dropWhile isWsp).reverse.dropWhile isWsp).reverse

/-- The character class `[A-Z0-9,]` of `ALLERGEN_REGEX`. -/
def isAllergenChar (c : Char) : Bool :=
  ('A' ≤ c && c ≤ 'Z') || ('0' ≤ c && c ≤ '9') || c = ','

/-- Declarative single anchored match of `([A-Z0-9,]*))` after an opening
parenthesis: returns the captured group content and the remainder after the
closing parenthesis.  (Backtracking never helps here because the class
`[A-Z0-9,]` excludes the closing parenthesis.) -/
def allergenBody : List Char → Option (List Char × List Char)
  | [] => none
  | c :: rest =>
    if c = ')' then some ([], rest)
    else if isAllergenChar c then
      match allergenBody rest with
      | some (cap, r) => some (c :: cap, r)
      | none => none
    else none

/-- Declarative single anchored match of `\(([A-Z0-9,]*)\)` at the head of
the list. -/
def allergenTryMatch : List Char → Option (List Char × List Char)
  | [] => none
  | c :: rest => if c = '(' then allergenBody rest else none

/-- One-pass scanner computing `ALLERGEN_REGEX.replace_all(text, "")`
(leftmost, non-overlapping).  The `Option` state holds the group content
captured so far while inside a potential match; on failure the buffered
characters are emitted verbatim and scanning resumes at the failing
character.  Certified against `allergenTryMatch` by
`removeAllergenGroups_eq_match`. -/
def ragoAux : Option (List Char) → List Char → List Char
  | none, [] => []
  | some buf, [] => '(' :: buf
  | none, c :: rest =>
    if c = '(' then ragoAux (some []) rest else c :: ragoAux none rest
  | some buf, c :: rest =>
    if c = ')' then ragoAux none rest
    else if isAllergenChar c then ragoAux (some (buf ++ [c])) rest
    else
      ('(' :: buf) ++
        (if c = '(' then ragoAux (some []) rest else c :: ragoAux none rest)

/-- Model of `ALLERGEN_REGEX.replace_all(text, "")`. -/
def removeAllergenGroups (l : List Char) : List Char := ragoAux none l

/-- One-pass scanner computing the captured group contents of
`ALLERGEN_REGEX.captures_iter(text)` (group 1 of every leftmost,
non-overlapping match, in order). -/
def acapAux : Option (List Char) → List Char → List (List Char)
  | _, [] => []
  | none, c :: rest =>
    if c = '(' then acapAux (some []) rest else acapAux none rest
  | some buf, c :: rest =>
    if c = ')' then buf :: acapAux none rest
    else if isAllergenChar c then acapAux (some (buf ++ [c])) rest
    else if c = '(' then acapAux (some []) rest
    else acapAux none rest

/-- Captured group contents of all matches of `ALLERGEN_REGEX`. -/
def allergenCaptures (l : List Char) : List (List Char) := acapAux none l

/-- One-pass scanner computing `SPACE_REGEX.replace_all(text, " ")`:
every maximal run of two or more white-space characters becomes a single
space (a lone white-space character is left as it is).  The `Bool` state
records that we are inside an already-collapsed run. -/
def csAux : Bool → List Char → List Char
  | _, [] => []
  | true, c :: rest =>
    if isWsp c then csAux true rest else c :: csAux false rest
  | false, [c] => [c]
  | false, c1 :: c2 :: rest =>
    if isWsp c1 && isWsp c2 then ' ' :: csAux true rest
    else c1 :: csAux false (c2 :: rest)

/-- Model of `SPACE_REGEX.replace_all(text, " ")`. -/
def collapseSpaces (l : List Char) : List Char := csAux false l

/-- Source `scrape.rs`: `remove_allergens` — delete every allergen group, collapse
runs of white space, trim. -/
def remove_allergens (text : List Char) : List Char :=
  trimChars (collapseSpaces (removeAllergenGroups text))

/-- Ordered insertion without duplicates: the effect of inserting one
element into a `BTreeSet<String>` represented as its sorted iteration
sequence. -/
def insertSorted (x : List Char) : List (List Char) → List (List Char)
  | [] => [x]
  | y :: ys =>
    if x < y then x :: y :: ys
    else if x = y then y :: ys
    else y :: insertSorted x ys

/-- Source `meal.rs`: `AllergenList`, a `BTreeSet<String>` modelled as its sorted,
duplicate-free iteration sequence. -/
abbrev AllergenList := List (List Char)

/-- Source `meal.rs`: `impl From<(&Regex, &str)> for AllergenList` — every capture
is split on commas and the pieces are collected into a `BTreeSet`.
`scrape.rs`: `collect_allergens` simply calls this conversion with
`ALLERGEN_REGEX`. -/
def collect_allergens (full_text : List Char) : AllergenList :=
  ((allergenCaptures full_text).flatMap (fun s => s.splitOn ',')).foldl
    (fun acc x => insertSorted x acc) []

/-- Source `meal.rs`: `enum MealType` (declaration order is the derived `Ord`). -/
inductive MealType where
  | Klassiker
  | Tellergericht
  | Empfehlung
  | Wok
  | BurgerClassics
  | BurgerWoche
  | PizzaTag
  | Vegetarisch
  | Unbekannt
deriving DecidableEq

/-- Rank of a `MealType` in declaration order (its derived `Ord`). -/
def MealType.rank : MealType → Nat
  | .Klassiker => 0
  | .Tellergericht => 1
  | .Empfehlung => 2
  | .Wok => 3
  | .BurgerClassics => 4
  | .BurgerWoche => 5
  | .PizzaTag => 6
  | .Vegetarisch => 7
  | .Unbekannt => 8

/-- Source `meal.rs`: `enum SideType` (declaration order is the derived `Ord`). -/
inductive SideType where
  | Main
  | Secondary
  | Unknown
deriving DecidableEq

/-- Rank of a `SideType` in declaration order (its derived `Ord`). -/
def SideType.rank : SideType → Nat
  | .Main => 0
  | .Secondary => 1
  | .Unknown => 2

/-- Source `lib.rs`: `DeEnStr` — a German and an English version of a string. -/
structure DeEnStr where
  de : List Char
  en : List Char
deriving DecidableEq

/-- Source `meal.rs`: the `NAMES_MAIN` matcher table, in source order.
`BurgerClassics` is listed before `Klassiker`. -/
def NAMES_MAIN : List (MealType × DeEnStr) :=
  [ (.BurgerClassics, ⟨strL "Burger Classics", strL "Burger Classics"⟩),
    (.BurgerWoche, ⟨strL "Burger der Woche", strL "Burger of the week"⟩),
    (.Tellergericht, ⟨strL "Tellergericht", strL "Stew"⟩),
    (.PizzaTag, ⟨strL "Pizza des Tages", strL "Pizza of the Day"⟩),
    (.Vegetarisch, ⟨strL "Vegetarisch", strL "Vegetarian"⟩),
    (.Empfehlung, ⟨strL "Empfehlung des Tages", strL "Suggestion of the day"⟩),
    (.Klassiker, ⟨strL "Klassiker", strL "Classics"⟩),
    (.Wok, ⟨strL "Wok", strL "Wok"⟩) ]

/-- Source `meal.rs`: the `NAMES_SIDE` matcher table, in source order. -/
def NAMES_SIDE : List (SideType × DeEnStr) :=
  [ (.Main, ⟨strL "Sättigungsbeilage", strL "Main side-dish"⟩),
    (.Main, ⟨strL "Hauptbeilage", strL "Main side-dish"⟩),
    (.Secondary, ⟨strL "Gemüsebeilage", strL "Secondary"⟩),
    (.Secondary, ⟨strL "Nebenbeilage", strL "Secondary"⟩) ]

/-- The per-entry test of `MealType::from_str` / `SideType::from_str`:
the lowercased input contains the lowercased English or German label. -/
def entryMatches (s : List Char) (e : DeEnStr) : Bool :=
  containsSub s (lowerL e.en) || containsSub s (lowerL e.de)

/-- Source `meal.rs`: `impl FromStr for MealType` — every return site is `Ok`,
so the error type is never produced. -/
def MealType.fromStr (s : List Char) : Except Unit MealType :=
  let sl := lowerL s
  match NAMES_MAIN.find? (fun e => entryMatches sl e.2) with
  | some e => .ok e.1
  | none => .ok .Unbekannt

/-- Source `meal.rs`: `MealType::infer` — unwraps the infallible `from_str`. -/
def MealType.infer (s : List Char) : MealType :=
  match MealType.fromStr s with
  | .ok t => t
  | .error _ => .Unbekannt

/-- Source `meal.rs`: `impl FromStr for SideType` — every return site is `Ok`. -/
def SideType.fromStr (s : List Char) : Except Unit SideType :=
  let sl := lowerL s
  match NAMES_SIDE.find? (fun e => entryMatches sl e.2) with
  | some e => .ok e.1
  | none => .ok .Unknown

/-- Source `meal.rs`: `SideType::infer` — unwraps the infallible `from_str`. -/
def SideType.infer (s : List Char) : SideType :=
  match SideType.fromStr s with
  | .ok t => t
  | .error _ => .Unknown

/-- Source `meal.rs`: `struct MealInfo`.  The derived Rust `Ord` is lexicographic
over the fields in declaration order; it is embedded below as `mealKey`. -/
structure MealInfo where
  typ : MealType
  text : List Char
  subtext : List Char
  price : List Char
  allergens : AllergenList
  vegan : Bool
deriving DecidableEq

/-- Source `meal.rs`: `struct SideAlternative`. -/
structure SideAlternative where
  text : List Char
  allergens : AllergenList
deriving DecidableEq

/-- Source `meal.rs`: `struct SideInfo`. -/
structure SideInfo where
  typ : SideType
  alternatives : List SideAlternative
deriving DecidableEq

/-- The derived lexicographic order of `MealInfo` as an order-embedding key:
`(typ, text, subtext, price, allergens, vegan)` compared left to right
exactly as Rust `#[derive(Ord)]` does. -/
def mealKey (m : MealInfo) :
    Lex (Nat × Lex (List Char × Lex (List Char × Lex (List Char ×
      Lex (AllergenList × Bool))))) :=
  toLex (m.typ.rank, toLex (m.text, toLex (m.subtext, toLex (m.price,
    toLex (m.allergens, m.vegan)))))

/-- Boolean `≤` of the derived `Ord` of `MealInfo`. -/
def mealLe (a b : MealInfo) : Bool := decide (mealKey a ≤ mealKey b)

/-- The derived lexicographic order of `SideAlternative` as a key. -/
def altKey (a : SideAlternative) : Lex (List Char × AllergenList) :=
  toLex (a.text, a.allergens)

/-- The derived lexicographic order of `SideInfo` as a key: `typ` first,
then the `alternatives` vector element-wise (Rust `Vec` `Ord` is the
lexicographic list order). -/
def sideKey (s : SideInfo) :
    Lex (Nat × List (Lex (List Char × AllergenList))) :=
  toLex (s.typ.rank, s.alternatives.map altKey)

/-- Boolean `≤` of the derived `Ord` of `SideInfo`. -/
def sideLe (a b : SideInfo) : Bool := decide (sideKey a ≤ sideKey b)

/-- Source `scrape.rs`: `vegan_detektiv` — heuristic vegan detection from the
meal type and the raw cell markup. -/
def vegan_detektiv (typ : MealType) (html : List Char) : Bool :=
  if typ = .Vegetarisch then true
  else
    let t := lowerL html
    containsSub t (strL "vegan") || containsSub t (strL "vegetarian") ||
      containsSub t (strL "vegetarisch")

/-- Source `config.rs`: `OPEN_DAYS`. -/
def OPEN_DAYS : Nat := 5

/-- A fixed-size array `[T; OPEN_DAYS]` of per-day entries. -/
def Days (α : Type) : Type := {l : List α // l.length = OPEN_DAYS}

instance {α : Type} [DecidableEq α] : DecidableEq (Days α) :=
  Subtype.instDecidableEq

/-- Model of `Default::default()` for `[Vec<T>; OPEN_DAYS]`: five empty vectors. -/
def Days.empty5 {β : Type} : Days (List β) :=
  ⟨List.replicate OPEN_DAYS [], List.length_replicate OPEN_DAYS []⟩

/-- Model of `v.get_mut(i).unwrap_or_else(panic).push(x)` on a per-day array:
fails (panics) when the index is out of bounds, otherwise appends `x`
to the `i`-th vector. -/
def Days.pushAt {β : Type} (d : Days (List β)) (i : Nat) (x : β) :
    Option (Days (List β)) :=
  if h : i < OPEN_DAYS then
    some ⟨d.val.set i ((d.val.getD i []) ++ [x]), by
      rw [List.length_set]; exact d.prop⟩
  else none

/-- Source `scrape.rs`: `struct WeekData`. -/
structure WeekData where
  main_dishes : Days (List MealInfo)
  side_dishes : Days (List SideInfo)
deriving DecidableEq

/-- Source `scrape.rs`: `struct DayView` (a read view into one day; modelled as a
structural copy of the two borrowed vectors). -/
structure DayView where
  main_dishes : List MealInfo
  side_dishes : List SideInfo
deriving DecidableEq

/-- What `scrape_page` observes of one `<td>` cell through the `scraper`
selectors: its `inner_html()`, the text runs of each nested `.dish-text`
element (in document order), and the text runs of the cell itself. -/
structure Cell where
  innerHtml : List Char
  dishTexts : List (List (List Char))
  textRuns : List (List Char)

/-- A table row: its `<td>` cells in document order. -/
structure Row where
  cells : List Cell

/-- What `scrape_page` observes of the parsed document: the rows matching
`tr.main-dish` and the rows matching `tr.side-dish`, in document order. -/
structure HtmlDoc where
  mainRows : List Row
  sideRows : List Row

/-- The failure mode of `scrape_page`: a row/column/element expected by the
table contract is missing.  The Rust source fails by panicking; the panic
aborts the whole call and is modelled as this error. -/
inductive ScrapeError where
  | layoutMismatch
deriving DecidableEq

instance {ε α : Type} [DecidableEq ε] [DecidableEq α] : DecidableEq (Except ε α) :=
  fun x y =>
    match x, y with
    | .error e, .error f =>
      if h : e = f then isTrue (by rw [h])
      else isFalse (by intro hh; cases hh; exact h rfl)
    | .ok a, .ok b =>
      if h : a = b then isTrue (by rw [h])
      else isFalse (by intro hh; cases hh; exact h rfl)
    | .error _, .ok _ => isFalse (by intro hh; cases hh)
    | .ok _, .error _ => isFalse (by intro hh; cases hh)

/-- Rust `str::split_once(pat)` restricted to what `scrape_page` uses of
it: the suffix after the first occurrence of `pat`, if any. -/
def afterFirst (pat : List Char) : List Char → Option (List Char)
  | [] => none
  | c :: rest =>
    if pat.isPrefixOf (c :: rest) then some ((c :: rest).drop pat.length)
    else afterFirst pat rest

/-- The weekday-column loop of a main-dish row (`for col_num in 0..OPEN_DAYS`):
for each column take the next cell (panic if missing), look for the first
`.dish-text` element; if present, the first text run (panic if missing,
trimmed) is the headline and the remaining runs concatenated are the
subtext; build a `MealInfo` and push it onto that day's vector. -/
def mainCols (typ : MealType) (price : List Char) :
    List Nat → List Cell → Days (List MealInfo) →
    Except ScrapeError (Days (List MealInfo))
  | [], _, acc => .ok acc
  | _ :: _, [], _ => .error .layoutMismatch
  | col :: cols, curr :: cellsRest, acc =>
    match curr.dishTexts.head? with
    | none => mainCols typ price cols cellsRest acc
    | some runs =>
      match runs with
      | [] => .error .layoutMismatch
      | tv :: restRuns =>
        let text_v := trimChars tv
        let subtext_v := restRuns.flatten
        let mi : MealInfo :=
          { typ := typ
            text := remove_allergens text_v
            subtext := remove_allergens subtext_v
            price := price
            allergens := collect_allergens (text_v ++ subtext_v)
            vegan := vegan_detektiv typ curr.innerHtml }
        match acc.pushAt col mi with
        | none => .error .layoutMismatch
        | some acc2 => mainCols typ price cols cellsRest acc2

/-- One `tr.main-dish` row: classify the first cell (panic if missing) into
a `MealType`, read the price as the suffix of the first cell after the
first `<br>` (empty if none), then walk the five weekday columns. -/
def processMainRow (acc : Days (List MealInfo)) (row : Row) :
    Except ScrapeError (Days (List MealInfo)) :=
  match row.cells with
  | [] => .error .layoutMismatch
  | c0 :: rest =>
    let type_text := c0.innerHtml
    let typ := MealType.infer type_text
    let price := (afterFirst (strL "<br>") type_text).getD []
    mainCols typ price [0, 1, 2, 3, 4] rest acc

/-- The weekday-column loop of a side-dish row: for each column take the
next cell (panic if missing), keep every text run other than the literal
separators "oder"/"or", and push one `SideInfo` holding one
`SideAlternative` per kept run. -/
def sideCols (typ : SideType) :
    List Nat → List Cell → Days (List SideInfo) →
    Except ScrapeError (Days (List SideInfo))
  | [], _, acc => .ok acc
  | _ :: _, [], _ => .error .layoutMismatch
  | col :: cols, curr :: cellsRest, acc =>
    let alts := (curr.textRuns.filter
        (fun s => !(s = strL "oder" || s = strL "or"))).map
      (fun s => SideAlternative.mk (remove_allergens s) (collect_allergens s))
    match acc.pushAt col (SideInfo.mk typ alts) with
    | none => .error .layoutMismatch
    | some acc2 => sideCols typ cols cellsRest acc2

/-- One `tr.side-dish` row: classify the first cell (panic if missing) into
a `SideType`, then walk the five weekday columns. -/
def processSideRow (acc : Days (List SideInfo)) (row : Row) :
    Except ScrapeError (Days (List SideInfo)) :=
  match row.cells with
  | [] => .error .layoutMismatch
  | c0 :: rest => sideCols (SideType.infer c0.innerHtml) [0, 1, 2, 3, 4] rest acc

/-- Source `scrape.rs`: `scrape_page` — walk all main-dish rows, then all
side-dish rows, and assemble the `WeekData`. -/
def scrape_page (doc : HtmlDoc) : Except ScrapeError WeekData :=
  match doc.mainRows.foldlM processMainRow Days.empty5 with
  | .error e => .error e
  | .ok m =>
    match doc.sideRows.foldlM processSideRow Days.empty5 with
    | .error e => .error e
    | .ok s => .ok ⟨m, s⟩

/-- Source `scrape.rs`: `WeekData::get_day` — bounds-checked view into one day;
an out-of-range index panics (modelled as `none`). -/
def WeekData.get_day (w : WeekData) (day : Nat) : Option DayView :=
  if h : OPEN_DAYS ≤ day then none
  else
    some ⟨w.main_dishes.val.get ⟨day, by
            rw [w.main_dishes.prop]; omega⟩,
          w.side_dishes.val.get ⟨day, by
            rw [w.side_dishes.prop]; omega⟩⟩

/-- Source `scrape.rs`: `WeekData::sorted` — sort each day's main-dish vector and
each day's side-dish vector by the respective derived `Ord` (Rust
`slice::sort` is a stable merge sort). -/
def WeekData.sorted (w : WeekData) : WeekData :=
  ⟨⟨w.main_dishes.val.map (fun l => l.mergeSort mealLe), by
      rw [List.length_map]; exact w.main_dishes.prop⟩,
   ⟨w.side_dishes.val.map (fun l => l.mergeSort sideLe), by
      rw [List.length_map]; exact w.side_dishes.prop⟩⟩

/-- The `WeekData` extracted from a document with no matching rows: five
empty main-dish slots and five empty side-dish slots. -/
def WeekData.empty : WeekData := ⟨Days.empty5, Days.empty5⟩

/-- No suffix of `l` starts with a match of the allergen-marker pattern,
i.e. `l` has no substring matching `\(([A-Z0-9,]*)\)`. -/
def markerFree (l : List Char) : Bool :=
  l.tails.all (fun s => (allergenTryMatch s).isNone)

/-- The adjacency constraint produced by `SPACE_REGEX.replace_all`: no two
neighbouring characters are both white space. -/
def noWspPair (a b : Char) : Prop := ¬(isWsp a = true ∧ isWsp b = true)

/-- First cell of the end-to-end example row: the category label, the
allergen marker and, after a line break, the price. -/
def c2first : Cell :=
  { innerHtml := strL "Klassiker (A,B)<br>2,50 €", dishTexts := [], textRuns := [] }

/-- Weekday cell of the end-to-end example row: one dish-text element whose
text runs are the headline "Schnitzel (C)" and, after the line break, the
subtext "mit Sauce". -/
def c2day : Cell :=
  { innerHtml := strL "<span>Schnitzel (C)<br>mit Sauce</span>"
    dishTexts := [[strL "Schnitzel (C)", strL "mit Sauce"]]
    textRuns := [strL "Schnitzel (C)", strL "mit Sauce"] }

/-- The end-to-end example document: one main-dish row (label cell plus five
identical weekday cells), no side-dish rows. -/
def c2doc : HtmlDoc :=
  { mainRows := [⟨[c2first, c2day, c2day, c2day, c2day, c2day]⟩], sideRows := [] }

/-- The `MealInfo` actually produced by `scrape_page` for every weekday of
`c2doc`. -/
def c2meal : MealInfo :=
  { typ := .Klassiker, text := strL "Schnitzel", subtext := strL "mit Sauce"
    price := strL "2,50 €", allergens := [strL "C"], vegan := false }

/-- The `WeekData` actually produced by `scrape_page` on `c2doc`. -/
def c2week : WeekData :=
  ⟨⟨List.replicate 5 [c2meal], by decide⟩, ⟨List.replicate 5 [], by decide⟩⟩

/-- A malformed document: its single main-dish row has only two cells, so
fewer than five weekday cells follow the first cell. -/
def c1doc : HtmlDoc := { mainRows := [⟨[c2first, c2day]⟩], sideRows := [] }

/-! ## Helper lemmas -/

theorem getD_of_lt {α : Type} (l : List α) (i : Nat) (h : i < l.length) (dflt : α) :
    l.get ⟨i, h⟩ = l.getD i dflt := by
  rw [List.getD_eq_getElem?_getD, List.getElem?_eq_getElem h]
  simp [List.get_eq_getElem]

theorem mainCols_short (typ : MealType) (price : List Char) :
    ∀ (cols : List Nat) (cells : List Cell) (acc : Days (List MealInfo)),
      cells.length < cols.length →
      mainCols typ price cols cells acc = .error .layoutMismatch := by
  intro cols
  induction cols with
  | nil => intro cells acc h; simp at h
  | cons col cols ih =>
    intro cells acc h
    match cells with
    | [] => rfl
    | curr :: cellsRest =>
      have hlen : cellsRest.length < cols.length := by
        simpa using Nat.lt_of_succ_lt_succ (by simpa using h)
      cases hdt : curr.dishTexts.head? with
      | none =>
        simp only [mainCols, hdt]
        exact ih cellsRest acc hlen
      | some runs =>
        cases runs with
        | nil => simp only [mainCols, hdt]
        | cons tv restRuns =>
          simp only [mainCols, hdt]
          split
          · rfl
          · next acc2 _ => exact ih cellsRest acc2 hlen

theorem sideCols_short (typ : SideType) :
    ∀ (cols : List Nat) (cells : List Cell) (acc : Days (List SideInfo)),
      cells.length < cols.length →
      sideCols typ cols cells acc = .error .layoutMismatch := by
  intro cols
  induction cols with
  | nil => intro cells acc h; simp at h
  | cons col cols ih =>
    intro cells acc h
    match cells with
    | [] => rfl
    | curr :: cellsRest =>
      have hlen : cellsRest.length < cols.length := by
        simpa using Nat.lt_of_succ_lt_succ (by simpa using h)
      simp only [sideCols]
      split
      · rfl
      · next acc2 _ => exact ih cellsRest acc2 hlen

theorem processMainRow_short (row : Row) (hlen : row.cells.length < 6) :
    ∀ acc, processMainRow acc row = .error .layoutMismatch := by
  intro acc
  match hc : row.cells with
  | [] => simp [processMainRow, hc]
  | c0 :: rest =>
    have h5 : rest.length < 5 := by
      rw [hc] at hlen
      simpa using Nat.lt_of_succ_lt_succ (by simpa using hlen)
    simp only [processMainRow, hc]
    exact mainCols_short _ _ _ _ _ (by simpa using h5)

theorem processSideRow_short (row : Row) (hlen : row.cells.length < 6) :
    ∀ acc, processSideRow acc row = .error .layoutMismatch := by
  intro acc
  match hc : row.cells with
  | [] => simp [processSideRow, hc]
  | c0 :: rest =>
    have h5 : rest.length < 5 := by
      rw [hc] at hlen
      simpa using Nat.lt_of_succ_lt_succ (by simpa using hlen)
    simp only [processSideRow, hc]
    exact sideCols_short _ _ _ _ (by simpa using h5)

theorem foldlM_error_of_mem {α β : Type} (f : β → α → Except ScrapeError β) :
    ∀ (l : List α) (r : α), r ∈ l →
      (∀ acc, f acc r = .error .layoutMismatch) →
      ∀ acc, List.foldlM f acc l = .error .layoutMismatch := by
  intro l
  induction l with
  | nil => intro r hr _ _; simp at hr
  | cons x xs ih =>
    intro r hr hf acc
    rw [List.foldlM_cons]
    cases hx : f acc x with
    | error e =>
      cases e
      rfl
    | ok a =>
      rcases List.mem_cons.mp hr with rfl | hr2
      · rw [hf acc] at hx; cases hx
      · exact ih r hr2 hf a

/-! ## Claim theorems -/

/-- Claim C1: a main-dish or side-dish row with a missing first cell or
fewer than 5 weekday cells after it makes `scrape_page` fail the whole call
with a `LayoutMismatch` error; no truncated or partial `WeekData` is
returned for such a document. -/
theorem spec_c1 (doc : HtmlDoc)
    (h : (∃ r ∈ doc.mainRows, r.cells.length < 6) ∨
         (∃ r ∈ doc.sideRows, r.cells.length < 6)) :
    scrape_page doc = .error .layoutMismatch := by
  rcases h with ⟨r, hr, hlen⟩ | ⟨r, hr, hlen⟩
  · have hfold := foldlM_error_of_mem processMainRow doc.mainRows r hr
      (processMainRow_short r hlen) Days.empty5
    unfold scrape_page
    rw [hfold]
  · have hside := foldlM_error_of_mem processSideRow doc.sideRows r hr
      (processSideRow_short r hlen) Days.empty5
    unfold scrape_page
    cases hm : doc.mainRows.foldlM processMainRow Days.empty5 with
    | error e => cases e; rfl
    | ok m => rw [hside]

/-- Witness for C1: on the concrete document whose single main-dish row has
only one weekday cell, `scrape_page` fails with `layoutMismatch`. -/
theorem spec_c1_witness : scrape_page c1doc = .error .layoutMismatch :=
  spec_c1 c1doc (Or.inl ⟨⟨[c2first, c2day]⟩, by simp [c1doc], by decide⟩)

/-- Claim C10: a document with no main-dish rows and no side-dish rows
makes `scrape_page` succeed with a `WeekData` whose five main-dish slots
and five side-dish slots are all present and empty. -/
theorem spec_c10 (doc : HtmlDoc) (hm : doc.mainRows = []) (hs : doc.sideRows = []) :
    scrape_page doc = .ok WeekData.empty ∧
      WeekData.empty.main_dishes.val = List.replicate 5 [] ∧
      WeekData.empty.side_dishes.val = List.replicate 5 [] := by
  refine ⟨?_, rfl, rfl⟩
  unfold scrape_page
  rw [hm, hs]
  rfl

/-- Witness for C10 at the concrete empty document. -/
theorem spec_c10_witness : scrape_page ⟨[], []⟩ = .ok WeekData.empty :=
  (spec_c10 ⟨[], []⟩ rfl rfl).1

/-- Claim C8: `get_day` succeeds for every index 0..4 and returns the view
of that day's main-dish and side-dish sequences; for every index ≥ 5 it
fails with a usage error (panic, modelled as `none`) rather than a view. -/
theorem spec_c8 (w : WeekData) (d : Nat) :
    (d ≤ 4 → w.get_day d =
      some ⟨w.main_dishes.val.getD d [], w.side_dishes.val.getD d []⟩) ∧
    (5 ≤ d → w.get_day d = none) := by
  constructor
  · intro hd
    have h5 : ¬ OPEN_DAYS ≤ d := by unfold OPEN_DAYS; omega
    unfold WeekData.get_day
    rw [dif_neg h5]
    simp only [Option.some.injEq, DayView.mk.injEq]
    exact ⟨getD_of_lt _ _ _ _, getD_of_lt _ _ _ _⟩
  · intro hd
    unfold WeekData.get_day
    rw [dif_pos (by unfold OPEN_DAYS; omega)]

/-- Witness for C8: on the empty `WeekData`, day 2 yields the (empty) view
and day 5 fails. -/
theorem spec_c8_witness :
    WeekData.empty.get_day 2 = some ⟨[], []⟩ ∧ WeekData.empty.get_day 5 = none := by
  constructor
  · have h := (spec_c8 WeekData.empty 2).1 (by omega)
    rw [h]
    decide
  · exact (spec_c8 WeekData.empty 5).2 (by omega)

/-- Claim C5: any label whose lowercasing contains "burger classics" is
classified as `BurgerClassics`, not `Klassiker`: the `BurgerClassics` table
entry (whose German and English labels coincide) is tested before the
`Klassiker` entry. -/
theorem spec_c5 (s : List Char)
    (h : containsSub (lowerL s) (strL "burger classics") = true) :
    MealType.fromStr s = .ok .BurgerClassics ∧
      MealType.infer s = .BurgerClassics := by
  have hlab : lowerL (strL "Burger Classics") = strL "burger classics" := by decide
  have hfind : NAMES_MAIN.find? (fun e => entryMatches (lowerL s) e.2) =
      some (.BurgerClassics, ⟨strL "Burger Classics", strL "Burger Classics"⟩) := by
    unfold NAMES_MAIN
    apply List.find?_cons_of_pos
    simp [entryMatches, hlab, h]
  constructor
  · simp only [MealType.fromStr, hfind]
  · simp only [MealType.infer, MealType.fromStr, hfind]

/-- Witness for C5 at a concrete label containing "Burger Classics". -/
theorem spec_c5_witness :
    containsSub (lowerL (strL "our Burger Classics menu")) (strL "burger classics") = true ∧
      MealType.infer (strL "our Burger Classics menu") = .BurgerClassics :=
  ⟨by decide, (spec_c5 (strL "our Burger Classics menu") (by decide)).2⟩

/-- Claim C6: an input whose lowercasing contains none of the known German
or English labels is classified as `Unbekannt` resp. `Unknown`, and both
classifiers are total: for every input they return `Ok`, never an error. -/
theorem spec_c6 (s : List Char)
    (hm : ∀ e ∈ NAMES_MAIN,
      containsSub (lowerL s) (lowerL e.2.en) = false ∧
      containsSub (lowerL s) (lowerL e.2.de) = false)
    (hs : ∀ e ∈ NAMES_SIDE,
      containsSub (lowerL s) (lowerL e.2.en) = false ∧
      containsSub (lowerL s) (lowerL e.2.de) = false) :
    (MealType.fromStr s = .ok .Unbekannt ∧ SideType.fromStr s = .ok .Unknown) ∧
    (∀ t : List Char, (∃ m, MealType.fromStr t = .ok m) ∧
      (∃ k, SideType.fromStr t = .ok k)) := by
  constructor
  · have hfm : NAMES_MAIN.find? (fun e => entryMatches (lowerL s) e.2) = none := by
      apply List.find?_eq_none.mpr
      intro e he
      have h2 := hm e he
      simp [entryMatches, h2.1, h2.2]
    have hfs : NAMES_SIDE.find? (fun e => entryMatches (lowerL s) e.2) = none := by
      apply List.find?_eq_none.mpr
      intro e he
      have h2 := hs e he
      simp [entryMatches, h2.1, h2.2]
    exact ⟨by simp only [MealType.fromStr, hfm], by simp only [SideType.fromStr, hfs]⟩
  · intro t
    constructor
    · cases hf : NAMES_MAIN.find? (fun e => entryMatches (lowerL t) e.2) with
      | none => exact ⟨.Unbekannt, by simp only [MealType.fromStr, hf]⟩
      | some e => exact ⟨e.1, by simp only [MealType.fromStr, hf]⟩
    · cases hf : NAMES_SIDE.find? (fun e => entryMatches (lowerL t) e.2) with
      | none => exact ⟨.Unknown, by simp only [SideType.fromStr, hf]⟩
      | some e => exact ⟨e.1, by simp only [SideType.fromStr, hf]⟩

/-- Witness for C6 at the concrete unmatched label "xyz". -/
theorem spec_c6_witness :
    MealType.fromStr (strL "xyz") = .ok .Unbekannt ∧
      SideType.fromStr (strL "xyz") = .ok .Unknown :=
  (spec_c6 (strL "xyz") (by decide) (by decide)).1

/-- Claim C9: when the only pattern match of a string is the empty group
"()", the extracted allergen set is the one-element set containing the
empty string, not the empty list. -/
theorem spec_c9 :
    (∀ t : List Char, allergenCaptures t = [[]] → collect_allergens t = [[]]) ∧
    collect_allergens (strL "Soup ()") = [[]] ∧
    collect_allergens (strL "Soup ()") ≠ [] := by
  refine ⟨?_, by decide, by decide⟩
  intro t ht
  unfold collect_allergens
  rw [ht]
  decide

/-- Witness for C9 at a concrete string whose only match is "()". -/
theorem spec_c9_witness : collect_allergens (strL "Broth ()") = [[]] :=
  spec_c9.1 (strL "Broth ()") (by decide)

theorem mem_insertSorted {x z : List Char} :
    ∀ {l : List (List Char)}, z ∈ insertSorted x l → z = x ∨ z ∈ l := by
  intro l
  induction l with
  | nil =>
    intro h
    simp [insertSorted] at h
    exact Or.inl h
  | cons y ys ih =>
    intro h
    by_cases h1 : x < y
    · simp only [insertSorted, if_pos h1] at h
      rcases List.mem_cons.mp h with rfl | h2
      · exact Or.inl rfl
      · exact Or.inr h2
    · by_cases h2 : x = y
      · simp only [insertSorted, if_neg h1, if_pos h2] at h
        exact Or.inr h
      · simp only [insertSorted, if_neg h1, if_neg h2] at h
        rcases List.mem_cons.mp h with rfl | h3
        · exact Or.inr (List.mem_cons_self _ _)
        · rcases ih h3 with h4 | h5
          · exact Or.inl h4
          · exact Or.inr (List.mem_cons.mpr (Or.inr h5))

theorem pairwise_insertSorted {x : List Char} :
    ∀ {l : List (List Char)}, List.Pairwise (fun a b : List Char => a < b) l →
      List.Pairwise (fun a b : List Char => a < b) (insertSorted x l) := by
  intro l
  induction l with
  | nil =>
    intro _
    simp [insertSorted]
  | cons y ys ih =>
    intro h
    have hy := List.pairwise_cons.mp h
    by_cases h1 : x < y
    · simp only [insertSorted, if_pos h1]
      refine List.pairwise_cons.mpr ⟨?_, h⟩
      intro z hz
      rcases List.mem_cons.mp hz with rfl | h2
      · exact h1
      · exact lt_trans h1 (hy.1 z h2)
    · by_cases h2 : x = y
      · simp only [insertSorted, if_neg h1, if_pos h2]
        exact h
      · simp only [insertSorted, if_neg h1, if_neg h2]
        refine List.pairwise_cons.mpr ⟨?_, ih hy.2⟩
        intro z hz
        rcases mem_insertSorted hz with rfl | h3
        · exact lt_of_le_of_ne (le_of_not_lt h1) (fun hyx => h2 hyx.symm)
        · exact hy.1 z h3

theorem pairwise_foldl_insert :
    ∀ (pieces : List (List Char)) (acc : List (List Char)),
      List.Pairwise (fun a b : List Char => a < b) acc →
      List.Pairwise (fun a b : List Char => a < b)
        (pieces.foldl (fun a x => insertSorted x a) acc) := by
  intro pieces
  induction pieces with
  | nil => intro acc h; simpa using h
  | cons p ps ih =>
    intro acc h
    rw [List.foldl_cons]
    exact ih _ (pairwise_insertSorted h)

/-- Claim C4: the allergen list extracted from any string is strictly
sorted lexicographically (hence a duplicate-free set in sorted iteration
order); the example "Soup (A,C,A)" yields exactly the codes A and C, and a
string with no pattern match yields the empty list. -/
theorem spec_c4 :
    (∀ t : List Char,
      List.Pairwise (fun a b : List Char => a < b) (collect_allergens t) ∧
      (collect_allergens t).Nodup) ∧
    collect_allergens (strL "Soup (A,C,A)") = [strL "A", strL "C"] ∧
    (∀ t : List Char, allergenCaptures t = [] → collect_allergens t = []) := by
  refine ⟨?_, by decide, ?_⟩
  · intro t
    have hp : List.Pairwise (fun a b : List Char => a < b) (collect_allergens t) :=
      pairwise_foldl_insert _ [] List.Pairwise.nil
    exact ⟨hp, hp.imp ne_of_lt⟩
  · intro t ht
    unfold collect_allergens
    rw [ht]
    decide

/-- Witness for C4 at a concrete string with no pattern match. -/
theorem spec_c4_witness : collect_allergens (strL "Mensa") = [] :=
  spec_c4.2.2 (strL "Mensa") (by decide)

/-- Counterexample for C2: on the end-to-end example document the extracted
meal's allergens are only those of the dish text, `{C}` — not `{A, B, C}`
as the claim states (the `A`,`B` in the row-label cell are never collected). -/
theorem spec_c2_counterexample :
    scrape_page c2doc = .ok c2week ∧
    c2week.main_dishes.val.getD 0 [] = [c2meal] ∧
    c2meal.allergens ≠ [strL "A", strL "B", strL "C"] := by
  refine ⟨by decide, by decide, by decide⟩

/-- Claim C2 as amended: on the end-to-end example document every weekday
carries exactly one `MealInfo` with type `Klassiker`, text "Schnitzel",
subtext "mit Sauce", price "2,50 €", allergens `{C}` (computed from the raw
headline + subtext only) and vegan `false`. -/
theorem spec_c2_amended :
    scrape_page c2doc = .ok c2week ∧
    c2week.main_dishes.val = List.replicate 5 [c2meal] ∧
    c2week.side_dishes.val = List.replicate 5 [] ∧
    c2meal = ⟨.Klassiker, strL "Schnitzel", strL "mit Sauce", strL "2,50 €",
      [strL "C"], false⟩ := by
  refine ⟨by decide, by decide, by decide, by decide⟩

theorem ragoAux_body_some :
    ∀ (l : List Char) (buf cap r : List Char), allergenBody l = some (cap, r) →
      ragoAux (some buf) l = ragoAux none r := by
  intro l
  induction l with
  | nil => intro buf cap r h; simp [allergenBody] at h
  | cons c rest ih =>
    intro buf cap r h
    by_cases hc : c = ')'
    · subst hc
      have hbc : allergenBody (')' :: rest) = some ([], rest) := by
        simp [allergenBody]
      rw [hbc] at h
      simp only [Option.some.injEq, Prod.mk.injEq] at h
      obtain ⟨-, h2⟩ := h
      subst h2
      simp [ragoAux]
    · cases ha : isAllergenChar c with
      | false =>
        simp [allergenBody, hc, ha] at h
      | true =>
        cases hb : allergenBody rest with
        | none =>
          simp [allergenBody, hc, ha, hb] at h
        | some pr =>
          obtain ⟨cap2, r2⟩ := pr
          have hbc : allergenBody (c :: rest) = some (c :: cap2, r2) := by
            simp [allergenBody, hc, ha, hb]
          rw [hbc] at h
          simp only [Option.some.injEq, Prod.mk.injEq] at h
          obtain ⟨-, h2⟩ := h
          subst h2
          have hg : ragoAux (some buf) (c :: rest) = ragoAux (some (buf ++ [c])) rest := by
            simp [ragoAux, hc, ha]
          rw [hg]
          exact ih (buf ++ [c]) cap2 r2 hb

theorem ragoAux_body_none :
    ∀ (l : List Char) (buf : List Char), allergenBody l = none →
      ragoAux (some buf) l = ('(' :: buf) ++ ragoAux none l := by
  intro l
  induction l with
  | nil => intro buf _; simp [ragoAux]
  | cons c rest ih =>
    intro buf h
    by_cases hc : c = ')'
    · subst hc
      simp [allergenBody] at h
    · cases ha : isAllergenChar c with
      | true =>
        cases hb : allergenBody rest with
        | some pr =>
          simp [allergenBody, hc, ha, hb] at h
        | none =>
          have h1 : ragoAux (some buf) (c :: rest) = ragoAux (some (buf ++ [c])) rest := by
            simp [ragoAux, hc, ha]
          have hcp : ¬ c = '(' := by
            intro hcc
            subst hcc
            exact absurd ha (by decide)
          rw [h1, ih (buf ++ [c]) hb]
          simp [ragoAux, hcp, List.append_assoc]
      | false =>
        simp [ragoAux, hc, ha]

/-- The structural scanner agrees with the declarative "replace the leftmost
match and continue after it, else keep one character and rescan" unfolding
of `ALLERGEN_REGEX.replace_all(text, "")`. -/
theorem removeAllergenGroups_eq_match (c : Char) (rest : List Char) :
    removeAllergenGroups (c :: rest) =
      match allergenTryMatch (c :: rest) with
      | some (_, r) => removeAllergenGroups r
      | none => c :: removeAllergenGroups rest := by
  by_cases hc : c = '('
  · subst hc
    have h0 : allergenTryMatch ('(' :: rest) = allergenBody rest := by
      simp [allergenTryMatch]
    have h1 : removeAllergenGroups ('(' :: rest) = ragoAux (some []) rest := by
      simp [removeAllergenGroups, ragoAux]
    cases hb : allergenBody rest with
    | none =>
      rw [h0, hb, h1, ragoAux_body_none rest [] hb]
      rfl
    | some pr =>
      obtain ⟨cap, r⟩ := pr
      rw [h0, hb, h1, ragoAux_body_some rest [] cap r hb]
      rfl
  · have h0 : allergenTryMatch (c :: rest) = none := by
      simp [allergenTryMatch, hc]
    rw [h0]
    simp [removeAllergenGroups, ragoAux, hc]

theorem removeAllergenGroups_of_markerFree :
    ∀ l : List Char, markerFree l = true → removeAllergenGroups l = l := by
  intro l
  induction l with
  | nil => intro _; rfl
  | cons c rest ih =>
    intro h
    have hm : allergenTryMatch (c :: rest) = none := by
      have h2 := (List.all_eq_true.mp h) (c :: rest) (by
        rw [List.tails_cons]
        exact List.mem_cons_self _ _)
      exact Option.isNone_iff_eq_none.mp h2
    have hrest : markerFree rest = true := by
      unfold markerFree at h ⊢
      simp only [List.tails_cons, List.all_cons, Bool.and_eq_true] at h
      exact h.2
    rw [removeAllergenGroups_eq_match]
    simp only [hm]
    rw [ih hrest]

theorem cs_false_cons_of_not_wsp {c : Char} (hw : isWsp c = false) (rest : List Char) :
    csAux false (c :: rest) = c :: csAux false rest := by
  cases rest with
  | nil => rfl
  | cons c2 r => simp [csAux, hw]

theorem cs_true_eq : ∀ l : List Char, csAux true l = csAux false (l.dropWhile isWsp) := by
  intro l
  induction l with
  | nil => rfl
  | cons c rest ih =>
    cases hw : isWsp c with
    | true => simp [csAux, hw, List.dropWhile_cons, ih]
    | false =>
      have h1 : csAux true (c :: rest) = c :: csAux false rest := by
        simp [csAux, hw]
      have h2 : (c :: rest).dropWhile isWsp = c :: rest := by
        simp [List.dropWhile_cons, hw]
      rw [h1, h2, cs_false_cons_of_not_wsp hw]

theorem dropWhile_head_not_wsp :
    ∀ (l : List Char) (y : Char), (l.dropWhile isWsp).head? = some y → isWsp y = false := by
  intro l
  induction l with
  | nil => intro y h; simp at h
  | cons c rest ih =>
    intro y h
    cases hw : isWsp c with
    | true =>
      simp only [List.dropWhile_cons, hw, if_true] at h
      exact ih y h
    | false =>
      simp [List.dropWhile_cons, hw] at h
      subst h
      exact hw

theorem dropWhile_eq_self_of_head (l : List Char)
    (h : ∀ y, l.head? = some y → isWsp y = false) : l.dropWhile isWsp = l := by
  cases l with
  | nil => rfl
  | cons c rest =>
    have := h c rfl
    simp [List.dropWhile_cons, this]

theorem chain_csAux_false :
    ∀ (n : Nat) (l : List Char), l.length ≤ n → List.Chain' noWspPair (csAux false l) := by
  intro n
  induction n with
  | zero =>
    intro l hl
    have h0 : l = [] := List.eq_nil_of_length_eq_zero (Nat.le_zero.mp hl)
    subst h0
    simp [csAux]
  | succ n ih =>
    intro l hl
    match l with
    | [] => simp [csAux]
    | [c] => simp [csAux]
    | c1 :: c2 :: rest =>
      cases hww : (isWsp c1 && isWsp c2) with
      | true =>
        have hgoal : csAux false (c1 :: c2 :: rest) = ' ' :: csAux true rest := by
          simp [csAux, hww]
        rw [hgoal, cs_true_eq]
        have hlen : (rest.dropWhile isWsp).length ≤ n := by
          have hd1 := (List.dropWhile_sublist (l := rest) isWsp).length_le
          have hd2 : rest.length + 2 ≤ n + 1 := by simpa using hl
          omega
        refine List.chain'_cons'.mpr ⟨?_, ih _ hlen⟩
        intro y hy
        cases hd : rest.dropWhile isWsp with
        | nil =>
          rw [hd] at hy
          simp [csAux] at hy
        | cons d ds =>
          have hdw : isWsp d = false := dropWhile_head_not_wsp rest d (by rw [hd]; rfl)
          rw [hd, cs_false_cons_of_not_wsp hdw] at hy
          simp at hy
          subst hy
          simp [noWspPair, hdw]
      | false =>
        have hgoal : csAux false (c1 :: c2 :: rest) = c1 :: csAux false (c2 :: rest) := by
          simp [csAux, hww]
        rw [hgoal]
        have hlen : (c2 :: rest).length ≤ n := by
          simpa using Nat.le_of_succ_le_succ (by simpa using hl)
        refine List.chain'_cons'.mpr ⟨?_, ih _ hlen⟩
        intro y hy
        cases hw1 : isWsp c1 with
        | false => simp [noWspPair, hw1]
        | true =>
          have hw2 : isWsp c2 = false := by
            cases h2 : isWsp c2
            · rfl
            · rw [hw1, h2] at hww
              simp at hww
          rw [cs_false_cons_of_not_wsp hw2] at hy
          simp at hy
          subst hy
          simp [noWspPair, hw2]

theorem csAux_false_of_chain :
    ∀ l : List Char, List.Chain' noWspPair l → csAux false l = l := by
  intro l
  induction l with
  | nil => intro _; rfl
  | cons c1 rest ih =>
    intro h
    cases rest with
    | nil => rfl
    | cons c2 r =>
      have h12 := (List.chain'_cons.mp h).1
      have hcond : (isWsp c1 && isWsp c2) = false := by
        cases hw1 : isWsp c1
        · simp
        · cases hw2 : isWsp c2
          · simp
          · exact absurd ⟨hw1, hw2⟩ h12
      have htail := ih (List.chain'_cons.mp h).2
      simp [csAux, hcond, htail]

theorem chain_suffix {l1 l2 : List Char} (h : List.Chain' noWspPair l2)
    (hs : l1 <:+ l2) : List.Chain' noWspPair l1 := by
  obtain ⟨pre, rfl⟩ := hs
  exact h.right_of_append

theorem chain_reverse_nwp {l : List Char} (h : List.Chain' noWspPair l) :
    List.Chain' noWspPair l.reverse := by
  rw [List.chain'_reverse]
  exact h.imp (fun a b hab => fun hc => hab ⟨hc.2, hc.1⟩)

theorem chain_trimChars {l : List Char} (h : List.Chain' noWspPair l) :
    List.Chain' noWspPair (trimChars l) :=
  chain_reverse_nwp (chain_suffix
    (chain_reverse_nwp (chain_suffix h (List.dropWhile_suffix isWsp)))
    (List.dropWhile_suffix isWsp))

theorem trimChars_head_not_wsp (l : List Char) :
    ∀ y, (trimChars l).head? = some y → isWsp y = false := by
  intro y hy
  have hpre : trimChars l <+: l.dropWhile isWsp := by
    have hs : (l.dropWhile isWsp).reverse.dropWhile isWsp <:+ (l.dropWhile isWsp).reverse :=
      List.dropWhile_suffix isWsp
    have hp := List.reverse_prefix.mpr hs
    rw [List.reverse_reverse] at hp
    exact hp
  obtain ⟨tl, ht⟩ := hpre
  cases hc : trimChars l with
  | nil =>
    rw [hc] at hy
    simp at hy
  | cons d ds =>
    rw [hc] at hy
    simp at hy
    subst hy
    have hhead : (l.dropWhile isWsp).head? = some d := by
      rw [← ht, hc]
      rfl
    exact dropWhile_head_not_wsp l d hhead

theorem trimChars_getLast_not_wsp (l : List Char) :
    ∀ y, (trimChars l).getLast? = some y → isWsp y = false := by
  intro y hy
  unfold trimChars at hy
  rw [List.getLast?_reverse] at hy
  exact dropWhile_head_not_wsp _ y hy

theorem trimChars_idem (l : List Char) : trimChars (trimChars l) = trimChars l := by
  have h1 : (trimChars l).dropWhile isWsp = trimChars l :=
    dropWhile_eq_self_of_head _ (trimChars_head_not_wsp l)
  have h2 : (trimChars l).reverse.dropWhile isWsp = (trimChars l).reverse := by
    apply dropWhile_eq_self_of_head
    intro y hy
    rw [List.head?_reverse] at hy
    exact trimChars_getLast_not_wsp l y hy
  show (((trimChars l).dropWhile isWsp).reverse.dropWhile isWsp).reverse = trimChars l
  rw [h1, h2, List.reverse_reverse]

/-- Counterexample for C3: on the input "((A,B))" the removal of the inner
marker "(A,B)" creates the new marker "()", so `clean` is neither idempotent
nor marker-free there: `clean("((A,B))") = "()"` and `clean(clean("((A,B))"))
= ""`. -/
theorem spec_c3_counterexample :
    remove_allergens (remove_allergens (strL "((A,B))")) ≠
        remove_allergens (strL "((A,B))") ∧
      markerFree (remove_allergens (strL "((A,B))")) = false :=
  ⟨by decide, by decide⟩

/-- Claim C3 as amended: `clean` is idempotent on every input `t` whose
cleaned form contains no substring matching the allergen-marker pattern;
in general removing a marker can itself create a new marker, so `clean(t)`
may contain a marker and a second `clean` then differs. -/
theorem spec_c3_amended (t : List Char)
    (h : markerFree (remove_allergens t) = true) :
    remove_allergens (remove_allergens t) = remove_allergens t := by
  have h1 : removeAllergenGroups (remove_allergens t) = remove_allergens t :=
    removeAllergenGroups_of_markerFree _ h
  have hchain0 : List.Chain' noWspPair (collapseSpaces (removeAllergenGroups t)) :=
    chain_csAux_false (removeAllergenGroups t).length _ le_rfl
  have hchain : List.Chain' noWspPair (remove_allergens t) := chain_trimChars hchain0
  have h2 : collapseSpaces (remove_allergens t) = remove_allergens t :=
    csAux_false_of_chain _ hchain
  show trimChars (collapseSpaces (removeAllergenGroups (remove_allergens t))) =
    remove_allergens t
  rw [h1, h2]
  exact trimChars_idem (collapseSpaces (removeAllergenGroups t))

/-- Witness for the amended C3 at a concrete input whose cleaned form is
marker-free. -/
theorem spec_c3_witness :
    markerFree (remove_allergens (strL "Soup (A,B)  x")) = true ∧
      remove_allergens (remove_allergens (strL "Soup (A,B)  x")) =
        remove_allergens (strL "Soup (A,B)  x") :=
  ⟨by decide, spec_c3_amended (strL "Soup (A,B)  x") (by decide)⟩

theorem mealLe_trans (a b c : MealInfo) (hab : mealLe a b = true)
    (hbc : mealLe b c = true) : mealLe a c = true := by
  simp only [mealLe, decide_eq_true_eq] at hab hbc ⊢
  exact le_trans hab hbc

theorem mealLe_total (a b : MealInfo) : (mealLe a b || mealLe b a) = true := by
  simp only [mealLe, Bool.or_eq_true, decide_eq_true_eq]
  exact le_total _ _

theorem sideLe_trans (a b c : SideInfo) (hab : sideLe a b = true)
    (hbc : sideLe b c = true) : sideLe a c = true := by
  simp only [sideLe, decide_eq_true_eq] at hab hbc ⊢
  exact le_trans hab hbc

theorem sideLe_total (a b : SideInfo) : (sideLe a b || sideLe b a) = true := by
  simp only [sideLe, Bool.or_eq_true, decide_eq_true_eq]
  exact le_total _ _

theorem mergeSort_meal_idem (l : List MealInfo) :
    (l.mergeSort mealLe).mergeSort mealLe = l.mergeSort mealLe :=
  List.mergeSort_of_sorted (List.sorted_mergeSort mealLe_trans mealLe_total l)

theorem mergeSort_side_idem (l : List SideInfo) :
    (l.mergeSort sideLe).mergeSort sideLe = l.mergeSort sideLe :=
  List.mergeSort_of_sorted (List.sorted_mergeSort sideLe_trans sideLe_total l)

/-- Claim C7: `sorted()` is idempotent; for each day the sorted week holds
the same multiset of main-dish entries and of side-dish entries as the
original (a permutation — nothing added, removed or duplicated); and each
day's sequences in the sorted week are ordered by the entities' derived
total order. -/
theorem spec_c7 (w : WeekData) :
    w.sorted.sorted = w.sorted ∧
    (∀ d : Fin 5,
      (w.sorted.main_dishes.val.getD d.val []).Perm (w.main_dishes.val.getD d.val []) ∧
      (w.sorted.side_dishes.val.getD d.val []).Perm (w.side_dishes.val.getD d.val [])) ∧
    (∀ d : Fin 5,
      List.Pairwise (fun a b => mealLe a b = true)
        (w.sorted.main_dishes.val.getD d.val []) ∧
      List.Pairwise (fun a b => sideLe a b = true)
        (w.sorted.side_dishes.val.getD d.val [])) := by
  refine ⟨?_, ?_, ?_⟩
  · unfold WeekData.sorted
    simp only [WeekData.mk.injEq]
    constructor
    · apply Subtype.ext
      show (w.main_dishes.val.map (fun l => l.mergeSort mealLe)).map
          (fun l => l.mergeSort mealLe) =
        w.main_dishes.val.map (fun l => l.mergeSort mealLe)
      rw [List.map_map]
      apply List.map_congr_left
      intro x _
      exact mergeSort_meal_idem x
    · apply Subtype.ext
      show (w.side_dishes.val.map (fun l => l.mergeSort sideLe)).map
          (fun l => l.mergeSort sideLe) =
        w.side_dishes.val.map (fun l => l.mergeSort sideLe)
      rw [List.map_map]
      apply List.map_congr_left
      intro x _
      exact mergeSort_side_idem x
  · intro d
    constructor
    · show ((w.main_dishes.val.map (fun l => l.mergeSort mealLe)).getD d.val []).Perm
        (w.main_dishes.val.getD d.val [])
      rw [List.getD_eq_getElem?_getD, List.getElem?_map, List.getD_eq_getElem?_getD]
      cases h : w.main_dishes.val[d.val]? with
      | none => simp
      | some x => simpa using List.mergeSort_perm x mealLe
    · show ((w.side_dishes.val.map (fun l => l.mergeSort sideLe)).getD d.val []).Perm
        (w.side_dishes.val.getD d.val [])
      rw [List.getD_eq_getElem?_getD, List.getElem?_map, List.getD_eq_getElem?_getD]
      cases h : w.side_dishes.val[d.val]? with
      | none => simp
      | some x => simpa using List.mergeSort_perm x sideLe
  · intro d
    constructor
    · show List.Pairwise (fun a b => mealLe a b = true)
        ((w.main_dishes.val.map (fun l => l.mergeSort mealLe)).getD d.val [])
      rw [List.getD_eq_getElem?_getD, List.getElem?_map]
      cases h : w.main_dishes.val[d.val]? with
      | none => simp
      | some x => simpa using List.sorted_mergeSort mealLe_trans mealLe_total x
    · show List.Pairwise (fun a b => sideLe a b = true)
        ((w.side_dishes.val.map (fun l => l.mergeSort sideLe)).getD d.val [])
      rw [List.getD_eq_getElem?_getD, List.getElem?_map]
      cases h : w.side_dishes.val[d.val]? with
      | none => simp
      | some x => simpa using List.sorted_mergeSort sideLe_trans sideLe_total x
